import Mathlib

/-!
Shallow embedding of the pachyderm FUSE filesystem adapter (package fuse).
Go strings are modelled as lists of characters, machine integers as Int or
Nat (no overflow is relevant on the sizes involved), pointers that may be
nil as Option, and the remote data service as a record of response
functions together with an explicit trace of the calls an operation makes.
-/

namespace PachFuse

/-- Go strings are modelled as lists of characters. -/
abbrev GoStr := List Char

/-- Converts a Lean string literal into the Go string model. -/
def gs (s : String) : GoStr := s.toList

/-- Models pfs.Shard, a partition selector; the fields are opaque to the
adapter, which only carries shards through to RPC calls. -/
structure Shard where
  typ : Nat
  modulus : Nat
  deriving DecidableEq

/-- Models pfsclient.Commit: a repo name and a commit id. -/
structure Commit where
  repo : GoStr
  id : GoStr
  deriving DecidableEq

/-- Models pfsclient.File: a commit and a path. -/
structure PfsFile where
  commit : Commit
  path : GoStr
  deriving DecidableEq

/-- Models the proto message Node carried by directory and file values:
the resolved file identity, the repo alias, the writability flag, the
shard and the modification time (an opaque timestamp). -/
structure Node where
  file : PfsFile
  repoAlias : GoStr
  write : Bool
  shard : Option Shard
  modified : Option Nat
  deriving DecidableEq

/-- State of a write handle: whether h.w is open, the running byte count
h.written, the bytes forwarded to the server writer since it was opened
(the stream the server receives), and the containing file size h.f.size. -/
structure HandleState where
  wOpen : Bool
  written : Int
  stream : List Nat
  fsize : Int
  deriving DecidableEq

/-- A fresh handle as produced by file.newHandle together with the zero
size that directory.Create gives a new local file. -/
def initHandle : HandleState := ⟨false, 0, [], 0⟩

/-- Outcome of handle.Write: a success with the reported response.Size,
the error return for a gap in the byte stream, or a Go runtime abort from
the out-of-range slice expression. Each outcome carries the handle state. -/
inductive WriteOutcome where
  | ok (respSize : Int) (st : HandleState)
  | errGap (msg : GoStr) (st : HandleState)
  | panics (msg : GoStr) (st : HandleState)
  deriving DecidableEq

/-- The message of the error returned by handle.Write on a gap. -/
def gapMsg : GoStr := gs "gap in bytes written, (OpenNonSeekable should make this impossible)"

/-- The Go runtime message for a slice bound violation. -/
def sliceMsg : GoStr := gs "runtime error: slice bounds out of range"

/-- Lazily opening the writer (the nil check on h.w followed by
PutFileWriter) only flips the wOpen flag; the byte counter, the stream
already at the server and the file size are untouched. -/
def openW (st : HandleState) : HandleState := { st with wOpen := true }

@[simp] theorem openW_written (st : HandleState) : (openW st).written = st.written := rfl

@[simp] theorem openW_stream (st : HandleState) : (openW st).stream = st.stream := rfl

@[simp] theorem openW_fsize (st : HandleState) : (openW st).fsize = st.fsize := rfl

@[simp] theorem openW_wOpen (st : HandleState) : (openW st).wOpen = true := rfl

/-- Models handle.Write on the success path of the server writer: open the
writer if nil, compute repeated = written - offset, reject a negative
value, slice data[repeated:] (a Go runtime abort when repeated exceeds
len(data)), forward the slice, report written+repeated, and update the
running count and the file size. -/
def handleWrite (st : HandleState) (offset : Int) (data : List Nat) : WriteOutcome :=
  let st1 := openW st
  let repeated : Int := st1.written - offset
  if repeated < 0 then
    .errGap gapMsg st1
  else if (data.length : Int) < repeated then
    .panics sliceMsg st1
  else
    let sent := data.drop repeated.toNat
    let n : Int := (sent.length : Int)
    .ok (n + repeated)
      { st1 with
        written := st1.written + n
        stream := st1.stream ++ sent
        fsize := if st1.fsize < offset + n then offset + n else st1.fsize }

/-- The handle state an outcome carries. -/
def outState : WriteOutcome → HandleState
  | .ok _ st => st
  | .errGap _ st => st
  | .panics _ st => st

/-- The reported response.Size of a successful write, none otherwise. -/
def outSize : WriteOutcome → Option Int
  | .ok n _ => some n
  | .errGap _ _ => none
  | .panics _ _ => none

/-- The byte stream the server writer has received after an outcome. -/
def outStream (o : WriteOutcome) : List Nat := (outState o).stream

theorem handleWrite_ok_eq (st : HandleState) (off : Int) (data : List Nat)
    (h0 : ¬ st.written - off < 0) (h1 : ¬ (data.length : Int) < st.written - off) :
    handleWrite st off data =
      .ok (((data.drop (st.written - off).toNat).length : Int) + (st.written - off))
        { openW st with
          written := st.written + ((data.drop (st.written - off).toNat).length : Int)
          stream := st.stream ++ data.drop (st.written - off).toNat
          fsize := if st.fsize < off + ((data.drop (st.written - off).toNat).length : Int)
                   then off + ((data.drop (st.written - off).toNat).length : Int)
                   else st.fsize } := by
  unfold handleWrite
  simp only [openW_written, openW_stream, openW_fsize]
  rw [if_neg h0, if_neg h1]

theorem handleWrite_gap_eq (st : HandleState) (off : Int) (data : List Nat)
    (h0 : st.written - off < 0) :
    handleWrite st off data = .errGap gapMsg (openW st) := by
  unfold handleWrite
  simp only [openW_written]
  rw [if_pos h0]

theorem handleWrite_panics_eq (st : HandleState) (off : Int) (data : List Nat)
    (h0 : ¬ st.written - off < 0) (h1 : (data.length : Int) < st.written - off) :
    handleWrite st off data = .panics sliceMsg (openW st) := by
  unfold handleWrite
  simp only [openW_written]
  rw [if_neg h0, if_pos h1]

/-- Claim C1: on a fresh handle, write(h, 0, A) followed by write(h, 0,
A ++ B) with no intervening flush forwards exactly the byte stream A ++ B
to the server writer (the second call forwards only B) and reports
response.size = len A for the first call and len A + len B for the
second. -/
theorem write_duplicate_window (A B : List Nat) :
    outSize (handleWrite initHandle 0 A) = some (A.length : Int) ∧
    outStream (handleWrite initHandle 0 A) = A ∧
    outSize (handleWrite (outState (handleWrite initHandle 0 A)) 0 (A ++ B)) =
      some ((A.length : Int) + (B.length : Int)) ∧
    outStream (handleWrite (outState (handleWrite initHandle 0 A)) 0 (A ++ B)) = A ++ B := by
  have h0 : ¬ initHandle.written - 0 < 0 := by simp [initHandle]
  have h1 : ¬ ((A.length : Int) < initHandle.written - 0) := by
    simp [initHandle]
  have e1 := handleWrite_ok_eq initHandle 0 A h0 h1
  have hw : initHandle.written - 0 = 0 := by simp [initHandle]
  rw [hw] at e1
  simp only [Int.toNat_zero, List.drop_zero] at e1
  set st1 : HandleState :=
    { openW initHandle with
      written := initHandle.written + (A.length : Int)
      stream := initHandle.stream ++ A
      fsize := if initHandle.fsize < 0 + (A.length : Int)
               then 0 + (A.length : Int) else initHandle.fsize } with hst1
  have hw1 : st1.written = (A.length : Int) := by simp [hst1, initHandle]
  have hs1 : st1.stream = A := by simp [hst1, initHandle]
  have g0 : ¬ st1.written - 0 < 0 := by rw [hw1]; omega
  have g1 : ¬ (((A ++ B).length : Int) < st1.written - 0) := by
    rw [hw1]
    simp
  have e2 := handleWrite_ok_eq st1 0 (A ++ B) g0 g1
  have hw1' : st1.written - 0 = (A.length : Int) := by rw [hw1]; ring
  rw [hw1'] at e2
  simp only [Int.toNat_natCast, List.drop_left] at e2
  refine ⟨?_, ?_, ?_, ?_⟩
  · rw [e1]
    simp [outSize]
  · rw [e1]
    simp [outStream, outState, initHandle]
  · rw [e1]
    simp only [outState]
    rw [e2]
    simp [outSize]
    ring
  · rw [e1]
    simp only [outState]
    rw [e2]
    simp [outStream, outState, hs1, initHandle]

/-- Claim C4: when the running byte count leaves a gap (written - offset
negative), handle.Write returns the explanatory gap error, does not abort,
and forwards no bytes to the server writer. -/
theorem write_gap_returns_error (st : HandleState) (off : Int) (data : List Nat)
    (h : st.written - off < 0) :
    handleWrite st off data = .errGap gapMsg (openW st) ∧
    outStream (handleWrite st off data) = st.stream ∧
    outSize (handleWrite st off data) = none := by
  have e := handleWrite_gap_eq st off data h
  exact ⟨e, by rw [e]; simp [outStream, outState], by rw [e]; simp [outSize]⟩

theorem write_gap_returns_error_witness :
    (initHandle.written - 3 < 0) ∧
    (handleWrite initHandle 3 [7] = .errGap gapMsg (openW initHandle) ∧
      outStream (handleWrite initHandle 3 [7]) = initHandle.stream ∧
      outSize (handleWrite initHandle 3 [7]) = none) :=
  ⟨by decide, write_gap_returns_error initHandle 3 [7] (by decide)⟩

/-- Claim C10: handle.Write is total only when written - offset is at most
len(data): when the overlap exceeds the incoming slice the Go slice
expression aborts the operation instead of returning the gap error, and
whenever 0 ≤ written - offset ≤ len(data) the write succeeds. -/
theorem write_overlap_beyond_data (st : HandleState) (off : Int) (data : List Nat) :
    ((data.length : Int) < st.written - off →
      handleWrite st off data = .panics sliceMsg (openW st)) ∧
    (0 ≤ st.written - off → st.written - off ≤ (data.length : Int) →
      ∃ n st', handleWrite st off data = .ok n st') := by
  constructor
  · intro h1
    have h0 : ¬ st.written - off < 0 := by
      have : (0 : Int) ≤ (data.length : Int) := by positivity
      omega
    exact handleWrite_panics_eq st off data h0 h1
  · intro ha hb
    exact ⟨_, _, handleWrite_ok_eq st off data (by omega) (by omega)⟩

theorem write_overlap_beyond_data_witness :
    (((([5] : List Nat).length : Int) < (⟨true, 2, [3, 4], 2⟩ : HandleState).written - 0) ∧
      handleWrite ⟨true, 2, [3, 4], 2⟩ 0 [5] = .panics sliceMsg (openW ⟨true, 2, [3, 4], 2⟩)) ∧
    ((0 : Int) ≤ (initHandle : HandleState).written - 0 ∧
      ∃ n st', handleWrite initHandle 0 [9] = .ok n st') :=
  ⟨⟨by decide, (write_overlap_beyond_data ⟨true, 2, [3, 4], 2⟩ 0 [5]).1 (by decide)⟩,
   ⟨by decide, (write_overlap_beyond_data initHandle 0 [9]).2 (by decide) (by decide)⟩⟩

/-- Models a grpc error as seen through grpc.Code: a numeric status code
and a message. -/
structure GrpcError where
  code : Nat
  msg : GoStr
  deriving DecidableEq

/-- grpc codes.NotFound. -/
def codeNotFound : Nat := 5

/-- The error values the adapter hands to the kernel transport: the
sentinel errnos it uses explicitly, an error built with fmt.Errorf, or a
server error propagated unchanged. -/
inductive FuseError where
  | eperm
  | enoent
  | einval
  | errorf (msg : GoStr)
  | grpc (e : GrpcError)
  deriving DecidableEq

/-- Result of a Go function: a value, a returned error, or a runtime
abort. -/
inductive GoResult (α : Type) where
  | ok (a : α)
  | err (e : FuseError)
  | panics (msg : GoStr)
  deriving DecidableEq

/-- Models fuse.CommitMount. -/
structure CommitMount where
  commit : Commit
  fromCommit : Option Commit
  aliasName : GoStr
  shard : Option Shard
  deriving DecidableEq

/-- Models the mount configuration part of the filesystem value: the
shard filter and the commit mounts. -/
structure Filesystem where
  shard : Option Shard
  commitMounts : List CommitMount
  deriving DecidableEq

/-- Models pfsclient.RepoInfo; the adapter only tests it against nil. -/
structure RepoInfo where
  repoName : GoStr
  deriving DecidableEq

/-- Models pfsclient.CommitType (NONE, READ, WRITE). -/
inductive CommitType where
  | typeNone
  | typeRead
  | typeWrite
  deriving DecidableEq

/-- Models the fields of pfsclient.CommitInfo the adapter reads. -/
structure CommitInfo where
  commitType : CommitType
  finished : Option Nat
  deriving DecidableEq

/-- Models pfsclient.FileType as used in the switch statements. -/
inductive FileType where
  | regular
  | dir
  | other
  deriving DecidableEq

/-- Models the fields of pfsclient.FileInfo the adapter reads: the path
of the embedded File, the file type, the size and the modification
time. -/
structure FileInfo where
  path : GoStr
  fileType : FileType
  sizeBytes : Nat
  modified : Option Nat
  deriving DecidableEq

/-- The node values the adapter returns to the kernel: a directory value
or a file value (a directory plus size and the local flag). -/
inductive FsNode where
  | dir (d : Node)
  | file (d : Node) (size : Int) (loc : Bool)
  deriving DecidableEq

/-- fuse dirent types used by the adapter (DT_File and DT_Dir). -/
inductive DirentType where
  | file
  | dir
  deriving DecidableEq

/-- Models fuse.Dirent. -/
structure Dirent where
  name : GoStr
  dtype : DirentType
  deriving DecidableEq

/-- One RPC issued to the data service, with the arguments the adapter
passes. -/
inductive ServerCall where
  | inspectRepo (repo : GoStr)
  | inspectCommit (repo id : GoStr)
  | inspectFile (repo id path fromId : GoStr) (shard : Option Shard)
  | makeDirectory (repo id path : GoStr)
  | deleteFile (repo id path : GoStr)
  | getFile (repo id path : GoStr) (offset size : Int) (fromId : GoStr) (shard : Option Shard)
  | listFile (repo id path fromId : GoStr) (shard : Option Shard) (recurse : Bool)
  | putFileWriter (repo id path handleID : GoStr)
  deriving DecidableEq

/-- The data service, modelled as the responses it gives to each RPC. -/
structure Server where
  inspectRepo : GoStr → Except GrpcError (Option RepoInfo)
  inspectCommit : GoStr → GoStr → Except GrpcError (Option CommitInfo)
  inspectFile : GoStr → GoStr → GoStr → GoStr → Option Shard → Except GrpcError FileInfo
  makeDirectory : GoStr → GoStr → GoStr → Except GrpcError Unit
  deleteFile : GoStr → GoStr → GoStr → Except GrpcError Unit
  getFile : GoStr → GoStr → GoStr → Int → Int → GoStr → Option Shard → Except GrpcError (List Nat)
  listFile : GoStr → GoStr → GoStr → GoStr → Option Shard → Bool → Except GrpcError (List FileInfo)

/-- Models path.Join (and the filepath.Join in Remove, identical on
slash-separated paths) for the already-clean components the adapter
joins; Go additionally runs path.Clean, the identity on such inputs. -/
def pathJoin (a b : GoStr) : GoStr :=
  if a = [] then b else if b = [] then a else a ++ gs "/" ++ b

/-- Models directory.copy: every identity field is duplicated, the
Modified timestamp is not carried over. -/
def nodeCopy (d : Node) : Node :=
  { file := { commit := { repo := d.file.commit.repo, id := d.file.commit.id }
              path := d.file.path }
    write := d.write
    shard := d.shard
    repoAlias := d.repoAlias
    modified := none }

/-- Models filesystem.Root: a directory with empty repo name, commit id
and path. -/
def rootNode : Node :=
  { file := { commit := { repo := [], id := [] }, path := [] }
    repoAlias := []
    write := false
    shard := none
    modified := none }

/-- Models directory.getRepoOrAliasName. -/
def getRepoOrAliasName (d : Node) : GoStr :=
  if d.repoAlias ≠ [] then d.repoAlias else d.file.commit.repo

/-- Models filesystem.getCommitMount: an empty mount list manufactures an
ad-hoc mount for the requested name; otherwise the first mount whose
alias matches is preferred, then the first whose repo name matches. -/
def getCommitMount (f : Filesystem) (nameOrAlias : GoStr) : Option CommitMount :=
  if f.commitMounts = [] then
    some { commit := { repo := nameOrAlias, id := [] }
           fromCommit := none
           aliasName := []
           shard := f.shard }
  else
    match f.commitMounts.find? (fun cm => decide (cm.aliasName = nameOrAlias)) with
    | some cm => some cm
    | none => f.commitMounts.find? (fun cm => decide (cm.commit.repo = nameOrAlias))

/-- Models filesystem.getFromCommitID. -/
def getFromCommitID (f : Filesystem) (nameOrAlias : GoStr) : GoStr :=
  match getCommitMount f nameOrAlias with
  | none => []
  | some cm =>
    match cm.fromCommit with
    | none => []
    | some fc => fc.id

/-- The Go runtime message for a nil pointer dereference. -/
def nilDerefMsg : GoStr := gs "runtime error: invalid memory address or nil pointer dereference"

/-- Models directory.lookUpRepo, with the trace of RPCs issued. A nil
CommitInfo with a nil error would be dereferenced without a check. -/
def lookUpRepo (f : Filesystem) (srv : Server) (d : Node) (name : GoStr) :
    GoResult FsNode × List ServerCall :=
  match getCommitMount f name with
  | none => (.err .eperm, [])
  | some cm =>
    match srv.inspectRepo cm.commit.repo with
    | .error e => (.err (.grpc e), [.inspectRepo cm.commit.repo])
    | .ok none => (.err .enoent, [.inspectRepo cm.commit.repo])
    | .ok (some _) =>
      match srv.inspectCommit cm.commit.repo cm.commit.id with
      | .error e =>
        (.err (.grpc e),
         [.inspectRepo cm.commit.repo, .inspectCommit cm.commit.repo cm.commit.id])
      | .ok none =>
        (.panics nilDerefMsg,
         [.inspectRepo cm.commit.repo, .inspectCommit cm.commit.repo cm.commit.id])
      | .ok (some ci) =>
        let result := { nodeCopy d with
          file := { commit := { repo := cm.commit.repo, id := cm.commit.id }
                    path := d.file.path }
          repoAlias := cm.aliasName
          shard := cm.shard
          write := if ci.commitType = .typeRead then false else true
          modified := ci.finished }
        (.ok (.dir result),
         [.inspectRepo cm.commit.repo, .inspectCommit cm.commit.repo cm.commit.id])

/-- Models directory.lookUpCommit. -/
def lookUpCommit (srv : Server) (d : Node) (name : GoStr) :
    GoResult FsNode × List ServerCall :=
  match srv.inspectCommit d.file.commit.repo name with
  | .error e => (.err (.grpc e), [.inspectCommit d.file.commit.repo name])
  | .ok none => (.err .enoent, [.inspectCommit d.file.commit.repo name])
  | .ok (some ci) =>
    let result := { nodeCopy d with
      file := { commit := { repo := d.file.commit.repo, id := name }
                path := d.file.path }
      write := if ci.commitType = .typeRead then false else true
      modified := ci.finished }
    (.ok (.dir result), [.inspectCommit d.file.commit.repo name])

/-- The tail of directory.lookUpFile shared by both branches: copy the
parent, adopt the FileInfo path, and dispatch on the file type. -/
def lookUpFileCont (d : Node) (fi : FileInfo) : GoResult FsNode :=
  let dir := { nodeCopy d with
    file := { commit := { repo := d.file.commit.repo, id := d.file.commit.id }
              path := fi.path } }
  match fi.fileType with
  | .regular => .ok (.file dir (fi.sizeBytes : Int) false)
  | .dir => .ok (.dir dir)
  | .other => .err (.errorf (gs "Unrecognized FileType."))

/-- Models directory.lookUpFile: a writable parent synthesizes a
zero-size regular FileInfo without contacting the server; otherwise
InspectFile is called and any error becomes not-found. -/
def lookUpFile (f : Filesystem) (srv : Server) (d : Node) (name : GoStr) :
    GoResult FsNode × List ServerCall :=
  if d.write then
    let fi : FileInfo :=
      { path := pathJoin d.file.path name, fileType := .regular, sizeBytes := 0, modified := none }
    (lookUpFileCont d fi, [])
  else
    let fromId := getFromCommitID f (getRepoOrAliasName d)
    let call := ServerCall.inspectFile d.file.commit.repo d.file.commit.id
      (pathJoin d.file.path name) fromId d.shard
    match srv.inspectFile d.file.commit.repo d.file.commit.id
      (pathJoin d.file.path name) fromId d.shard with
    | .error _ => (.err .enoent, [call])
    | .ok fi => (lookUpFileCont d fi, [call])

/-- Models directory.Lookup: dispatch on the empty-string sentinels of
the repo name and the commit id. -/
def directoryLookup (f : Filesystem) (srv : Server) (d : Node) (name : GoStr) :
    GoResult FsNode × List ServerCall :=
  if d.file.commit.repo = [] then lookUpRepo f srv d name
  else if d.file.commit.id = [] then lookUpCommit srv d name
  else lookUpFile f srv d name

/-- Models directory.Create: reject when no commit id is resolved,
otherwise build a local file node (paired with a fresh handle, initHandle)
without contacting the server. -/
def directoryCreate (d : Node) (name : GoStr) : GoResult FsNode × List ServerCall :=
  if d.file.commit.id = [] then (.err .eperm, [])
  else
    let dir := { nodeCopy d with
      file := { commit := { repo := d.file.commit.repo, id := d.file.commit.id }
                path := pathJoin d.file.path name } }
    (.ok (.file dir 0 true), [])

/-- Models directory.Mkdir: reject when no commit id is resolved,
otherwise call MakeDirectory and return the copied directory at the
joined path. -/
def directoryMkdir (srv : Server) (d : Node) (name : GoStr) :
    GoResult FsNode × List ServerCall :=
  if d.file.commit.id = [] then (.err .eperm, [])
  else
    let call := ServerCall.makeDirectory d.file.commit.repo d.file.commit.id
      (pathJoin d.file.path name)
    match srv.makeDirectory d.file.commit.repo d.file.commit.id (pathJoin d.file.path name) with
    | .error e => (.err (.grpc e), [call])
    | .ok _ =>
      let dir := { nodeCopy d with
        file := { commit := { repo := d.file.commit.repo, id := d.file.commit.id }
                  path := pathJoin d.file.path name } }
      (.ok (.dir dir), [call])

/-- Models directory.Remove: DeleteFile is always called, with no
writability or commit check of any kind. -/
def directoryRemove (srv : Server) (d : Node) (name : GoStr) :
    GoResult Unit × List ServerCall :=
  let call := ServerCall.deleteFile d.file.commit.repo d.file.commit.id
    (pathJoin d.file.path name)
  match srv.deleteFile d.file.commit.repo d.file.commit.id (pathJoin d.file.path name) with
  | .error e => (.err (.grpc e), [call])
  | .ok _ => (.ok (), [call])

/-- Models handle.Read: GetFile into a buffer; a NotFound grpc code is
turned into EINVAL, any other error is propagated unchanged. -/
def handleRead (f : Filesystem) (srv : Server) (d : Node) (offset size : Int) :
    GoResult (List Nat) × List ServerCall :=
  let fromId := getFromCommitID f (getRepoOrAliasName d)
  let call := ServerCall.getFile d.file.commit.repo d.file.commit.id d.file.path
    offset size fromId d.shard
  match srv.getFile d.file.commit.repo d.file.commit.id d.file.path offset size fromId d.shard with
  | .error e =>
    if e.code = codeNotFound then (.err .einval, [call]) else (.err (.grpc e), [call])
  | .ok bytes => (.ok bytes, [call])

/-- The Go runtime message for an index bound violation. -/
def idxMsg : GoStr := gs "runtime error: index out of range"

/-- Models strings.TrimPrefix. -/
def trimPref (s pre : GoStr) : GoStr :=
  if pre.isPrefixOf s then s.drop pre.length else s

/-- Models the loop of directory.readFiles over the FileInfos returned by
ListFile: strip the parent path prefix, index the first character (a Go
runtime abort when the stripped name is empty), drop a leading slash, and
keep regular and directory entries. -/
def readFilesEntries (dirPath : GoStr) : List FileInfo → GoResult (List Dirent)
  | [] => .ok []
  | fi :: rest =>
    match trimPref fi.path dirPath with
    | [] => .panics idxMsg
    | c :: cs =>
      let name := if c = '/' then cs else c :: cs
      match readFilesEntries dirPath rest with
      | .ok ds =>
        match fi.fileType with
        | .regular => .ok (⟨name, .file⟩ :: ds)
        | .dir => .ok (⟨name, .dir⟩ :: ds)
        | .other => .ok ds
      | e => e

/-- Models directory.readFiles: ListFile with recurse false, then the
entry loop. -/
def readFiles (f : Filesystem) (srv : Server) (d : Node) :
    GoResult (List Dirent) × List ServerCall :=
  let fromId := getFromCommitID f (getRepoOrAliasName d)
  let call := ServerCall.listFile d.file.commit.repo d.file.commit.id d.file.path
    fromId d.shard false
  match srv.listFile d.file.commit.repo d.file.commit.id d.file.path fromId d.shard false with
  | .error e => (.err (.grpc e), [call])
  | .ok fis => (readFilesEntries d.file.path fis, [call])

/-- Models the key function: the string repo/commit/path used to index
the inode table. -/
def key (file : PfsFile) : GoStr :=
  file.commit.repo ++ gs "/" ++ file.commit.id ++ gs "/" ++ file.path

/-- Lookup in the inode table. The Go map from key strings to inodes is
modelled as the list of keys in insertion order; because an inserted key
always receives the entry count as its inode and entries are never
removed, the inode of a key is its index in that list. -/
def tblLookup : List GoStr → GoStr → Option Nat
  | [], _ => none
  | k' :: rest, k => if k' = k then some 0 else (tblLookup rest k).map (· + 1)

/-- Models filesystem.inode: return the existing inode for the key, or
assign the current entry count to a new key. -/
def inodeStep (t : List GoStr) (k : GoStr) : Nat × List GoStr :=
  match tblLookup t k with
  | some i => (i, t)
  | none => (t.length, t ++ [k])

/-- The inode a query returns on table t. -/
def inodeAt (t : List GoStr) (k : GoStr) : Nat := (inodeStep t k).1

/-- The table after a query on table t. -/
def tableAfter (t : List GoStr) (k : GoStr) : List GoStr := (inodeStep t k).2

/-- The table after a sequence of queries. -/
def tableRun (t : List GoStr) : List GoStr → List GoStr
  | [] => t
  | k :: ks => tableRun (tableAfter t k) ks

/-- A data service whose every call succeeds trivially; used to evaluate
operations at concrete inputs. -/
def srvOK : Server :=
  { inspectRepo := fun _ => .ok (some ⟨[]⟩)
    inspectCommit := fun _ _ => .ok (some ⟨.typeWrite, none⟩)
    inspectFile := fun _ _ _ _ _ => .ok ⟨[], .regular, 0, none⟩
    makeDirectory := fun _ _ _ => .ok ()
    deleteFile := fun _ _ _ => .ok ()
    getFile := fun _ _ _ _ _ _ _ => .ok []
    listFile := fun _ _ _ _ _ _ => .ok [] }

/-- A directory node inside the finished (read-only) commit c1 of repo
R. -/
def dReadOnly : Node :=
  { file := { commit := { repo := gs "R", id := gs "c1" }, path := [] }
    repoAlias := []
    write := false
    shard := none
    modified := none }

/-- A directory node inside the open (writable) commit c9 of repo R. -/
def dWrit : Node :=
  { file := { commit := { repo := gs "R", id := gs "c9" }, path := [] }
    repoAlias := []
    write := true
    shard := none
    modified := none }

/-- A mount configuration with no commit mounts. -/
def fsEmpty : Filesystem := ⟨none, []⟩

/-- A commit mount of repo R at commit c2 under alias out. -/
def cmOut : CommitMount := ⟨⟨gs "R", gs "c2"⟩, none, gs "out", none⟩

/-- A commit mount of the repo named out at commit c3, with no alias. -/
def cmOutRepo : CommitMount := ⟨⟨gs "out", gs "c3"⟩, none, [], none⟩

/-- A mount configuration with the two mounts above. -/
def fsMounts : Filesystem := ⟨none, [cmOut, cmOutRepo]⟩

/-- Claim C2 counterexample: on a node whose commit is finished
(read-only commit c1, write = false), Create is not rejected with EPERM:
it succeeds with a local file node; Mkdir and Remove go to the server. -/
theorem create_readonly_not_eperm_counterexample :
    dReadOnly.write = false ∧
    directoryCreate dReadOnly (gs "f") =
      (.ok (.file ⟨⟨⟨gs "R", gs "c1"⟩, gs "f"⟩, [], false, none, none⟩ 0 true), []) ∧
    directoryCreate dReadOnly (gs "f") ≠ ((.err .eperm : GoResult FsNode), []) ∧
    (directoryMkdir srvOK dReadOnly (gs "g")).2 =
      [.makeDirectory (gs "R") (gs "c1") (gs "g")] ∧
    (directoryRemove srvOK dReadOnly (gs "x")).2 =
      [.deleteFile (gs "R") (gs "c1") (gs "x")] := by
  decide

/-- Claim C2 amended: Create and Mkdir are rejected with EPERM (and make
no server call) exactly when the directory has no resolved commit id,
independently of writability; Create never contacts the server; Remove
always issues the DeleteFile call, with no writability check. -/
theorem write_ops_gate_on_commit_id (srv : Server) (d : Node) (name : GoStr) :
    (directoryCreate d name = ((.err .eperm : GoResult FsNode), ([] : List ServerCall)) ↔
      d.file.commit.id = []) ∧
    ((directoryCreate d name).2 = []) ∧
    (directoryMkdir srv d name = ((.err .eperm : GoResult FsNode), ([] : List ServerCall)) ↔
      d.file.commit.id = []) ∧
    ((directoryRemove srv d name).2 =
      [.deleteFile d.file.commit.repo d.file.commit.id (pathJoin d.file.path name)]) := by
  refine ⟨?_, ?_, ?_, ?_⟩
  · by_cases hid : d.file.commit.id = [] <;> simp [directoryCreate, hid]
  · by_cases hid : d.file.commit.id = [] <;> simp [directoryCreate, hid]
  · by_cases hid : d.file.commit.id = []
    · simp [directoryMkdir, hid]
    · cases h : srv.makeDirectory d.file.commit.repo d.file.commit.id
        (pathJoin d.file.path name) with
      | error e => simp [directoryMkdir, hid, h]
      | ok u => simp [directoryMkdir, hid, h]
  · cases h : srv.deleteFile d.file.commit.repo d.file.commit.id
      (pathJoin d.file.path name) with
    | error e => simp [directoryRemove, h]
    | ok u => simp [directoryRemove, h]

/-- Claim C3 counterexample: looking up a name under a writable directory
synthesizes the zero-size regular file with no server call, but the local
flag on the returned node is false, not true. -/
theorem lookup_writable_local_flag_counterexample :
    directoryLookup fsEmpty srvOK dWrit (gs "x") =
      (.ok (.file ⟨⟨⟨gs "R", gs "c9"⟩, gs "x"⟩, [], true, none, none⟩ 0 false), []) ∧
    (FsNode.file ⟨⟨⟨gs "R", gs "c9"⟩, gs "x"⟩, [], true, none, none⟩ 0 false ≠
      FsNode.file ⟨⟨⟨gs "R", gs "c9"⟩, gs "x"⟩, [], true, none, none⟩ 0 true) := by
  decide

/-- Claim C3 amended: a lookup under a writable directory with a fixed
commit returns a synthesized file node with size 0 and regular type and
performs no server call; the local flag of that node is false (only
Create sets it). -/
theorem lookup_writable_synthesizes_empty (f : Filesystem) (srv : Server) (d : Node)
    (name : GoStr) (hr : d.file.commit.repo ≠ []) (hi : d.file.commit.id ≠ [])
    (hw : d.write = true) :
    directoryLookup f srv d name =
      (.ok (.file { file := { commit := { repo := d.file.commit.repo, id := d.file.commit.id }
                              path := pathJoin d.file.path name }
                    repoAlias := d.repoAlias
                    write := d.write
                    shard := d.shard
                    modified := none } 0 false), []) := by
  simp [directoryLookup, hr, hi, lookUpFile, hw, lookUpFileCont, nodeCopy]

theorem lookup_writable_synthesizes_empty_witness :
    (dWrit.file.commit.repo ≠ [] ∧ dWrit.file.commit.id ≠ [] ∧ dWrit.write = true) ∧
    directoryLookup fsEmpty srvOK dWrit (gs "y") =
      (.ok (.file { file := { commit := { repo := dWrit.file.commit.repo
                                          id := dWrit.file.commit.id }
                              path := pathJoin dWrit.file.path (gs "y") }
                    repoAlias := dWrit.repoAlias
                    write := dWrit.write
                    shard := dWrit.shard
                    modified := none } 0 false), []) :=
  ⟨⟨by decide, by decide, by decide⟩,
   lookup_writable_synthesizes_empty fsEmpty srvOK dWrit (gs "y")
     (by decide) (by decide) (by decide)⟩

/-- The grpc error a missing repo produces on InspectRepo. -/
def grpcRepoMissing : GrpcError := ⟨5, gs "repo Q not found"⟩

/-- A data service on which InspectRepo always fails with a NotFound
error. -/
def srvRepoMissing : Server := { srvOK with inspectRepo := fun _ => .error grpcRepoMissing }

/-- Claim C6 counterexample: with an empty commit-mount list, looking up
an unknown name at the Root manufactures an ad-hoc mount and propagates
the InspectRepo error of the server; the result is not EPERM. -/
theorem root_lookup_empty_mounts_counterexample :
    directoryLookup fsEmpty srvRepoMissing rootNode (gs "Q") =
      (.err (.grpc grpcRepoMissing), [.inspectRepo (gs "Q")]) ∧
    (GoResult.err (α := FsNode) (.grpc grpcRepoMissing) ≠ .err .eperm) := by
  decide

/-- Claim C6 amended: when the commit-mount list is non-empty and the
name matches no alias and no repo name of any mount, the Root lookup
returns EPERM with no server call; with an empty mount list the name is
treated as an ad-hoc repo mount and the server response decides the
result. -/
theorem root_lookup_unknown_name_eperm (f : Filesystem) (srv : Server) (name : GoStr)
    (hne : f.commitMounts ≠ [])
    (h : ∀ cm ∈ f.commitMounts, cm.aliasName ≠ name ∧ cm.commit.repo ≠ name) :
    directoryLookup f srv rootNode name = (.err .eperm, []) := by
  have ha : f.commitMounts.find? (fun cm => decide (cm.aliasName = name)) = none := by
    rw [List.find?_eq_none]
    intro x hx
    simp [(h x hx).1]
  have hb : f.commitMounts.find? (fun cm => decide (cm.commit.repo = name)) = none := by
    rw [List.find?_eq_none]
    intro x hx
    simp [(h x hx).2]
  simp [directoryLookup, rootNode, lookUpRepo, getCommitMount, hne, ha, hb]

theorem root_lookup_unknown_name_eperm_witness :
    (fsMounts.commitMounts ≠ [] ∧
      ∀ cm ∈ fsMounts.commitMounts, cm.aliasName ≠ gs "Q" ∧ cm.commit.repo ≠ gs "Q") ∧
    directoryLookup fsMounts srvOK rootNode (gs "Q") = (.err .eperm, []) :=
  ⟨⟨by decide, by decide⟩,
   root_lookup_unknown_name_eperm fsMounts srvOK (gs "Q") (by decide) (by decide)⟩

/-- Claim C7: when GetFile fails with the grpc NotFound code the read
returns EINVAL; any other server error is propagated unchanged; a
successful read hands the received bytes to the kernel. -/
theorem read_notfound_maps_to_einval (f : Filesystem) (srv : Server) (d : Node)
    (off sz : Int) (e : GrpcError) (bytes : List Nat) :
    (srv.getFile d.file.commit.repo d.file.commit.id d.file.path off sz
        (getFromCommitID f (getRepoOrAliasName d)) d.shard = .error e →
      e.code = codeNotFound →
      handleRead f srv d off sz =
        (.err .einval,
         [.getFile d.file.commit.repo d.file.commit.id d.file.path off sz
            (getFromCommitID f (getRepoOrAliasName d)) d.shard])) ∧
    (srv.getFile d.file.commit.repo d.file.commit.id d.file.path off sz
        (getFromCommitID f (getRepoOrAliasName d)) d.shard = .error e →
      e.code ≠ codeNotFound →
      handleRead f srv d off sz =
        (.err (.grpc e),
         [.getFile d.file.commit.repo d.file.commit.id d.file.path off sz
            (getFromCommitID f (getRepoOrAliasName d)) d.shard])) ∧
    (srv.getFile d.file.commit.repo d.file.commit.id d.file.path off sz
        (getFromCommitID f (getRepoOrAliasName d)) d.shard = .ok bytes →
      handleRead f srv d off sz =
        (.ok bytes,
         [.getFile d.file.commit.repo d.file.commit.id d.file.path off sz
            (getFromCommitID f (getRepoOrAliasName d)) d.shard])) := by
  refine ⟨fun h hc => ?_, fun h hc => ?_, fun h => ?_⟩
  · simp [handleRead, h, hc]
  · simp [handleRead, h, hc]
  · simp [handleRead, h]

/-- A data service on which GetFile fails with a NotFound error. -/
def srvGetMissing : Server :=
  { srvOK with getFile := fun _ _ _ _ _ _ _ => .error ⟨5, gs "file not found"⟩ }

/-- A data service on which GetFile fails with an internal error. -/
def srvGetBroken : Server :=
  { srvOK with getFile := fun _ _ _ _ _ _ _ => .error ⟨13, gs "internal"⟩ }

theorem read_notfound_maps_to_einval_witness :
    (handleRead fsEmpty srvGetMissing dReadOnly 0 8 =
      (.err .einval,
       [.getFile dReadOnly.file.commit.repo dReadOnly.file.commit.id dReadOnly.file.path 0 8
          (getFromCommitID fsEmpty (getRepoOrAliasName dReadOnly)) dReadOnly.shard])) ∧
    (handleRead fsEmpty srvGetBroken dReadOnly 0 8 =
      (.err (.grpc ⟨13, gs "internal"⟩),
       [.getFile dReadOnly.file.commit.repo dReadOnly.file.commit.id dReadOnly.file.path 0 8
          (getFromCommitID fsEmpty (getRepoOrAliasName dReadOnly)) dReadOnly.shard])) ∧
    (handleRead fsEmpty srvOK dReadOnly 0 8 =
      (.ok [],
       [.getFile dReadOnly.file.commit.repo dReadOnly.file.commit.id dReadOnly.file.path 0 8
          (getFromCommitID fsEmpty (getRepoOrAliasName dReadOnly)) dReadOnly.shard])) :=
  ⟨(read_notfound_maps_to_einval fsEmpty srvGetMissing dReadOnly 0 8
      ⟨5, gs "file not found"⟩ []).1 (by rfl) (by decide),
   (read_notfound_maps_to_einval fsEmpty srvGetBroken dReadOnly 0 8
      ⟨13, gs "internal"⟩ []).2.1 (by rfl) (by decide),
   (read_notfound_maps_to_einval fsEmpty srvOK dReadOnly 0 8
      ⟨0, []⟩ []).2.2 (by rfl)⟩

/-- Claim C8: resolution prefers aliases: if some mount of the
configuration has the requested alias, getCommitMount returns the first
such mount, and the repo-name scan is consulted only when no alias
matches (and the mount list is non-empty). -/
theorem alias_resolution_alias_first (f : Filesystem) (s : GoStr) (m : CommitMount) :
    (f.commitMounts.find? (fun cm => decide (cm.aliasName = s)) = some m →
      getCommitMount f s = some m ∧ m.aliasName = s) ∧
    (f.commitMounts ≠ [] →
      f.commitMounts.find? (fun cm => decide (cm.aliasName = s)) = none →
      getCommitMount f s = f.commitMounts.find? (fun cm => decide (cm.commit.repo = s))) := by
  constructor
  · intro h
    have hne : f.commitMounts ≠ [] := by
      intro he
      rw [he] at h
      simp at h
    have hp := List.find?_some h
    refine ⟨?_, by simpa using hp⟩
    simp [getCommitMount, hne, h]
  · intro hne h
    simp [getCommitMount, hne, h]

theorem alias_resolution_alias_first_witness :
    (getCommitMount fsMounts (gs "out") = some cmOut ∧ cmOut.aliasName = gs "out") ∧
    (getCommitMount fsMounts (gs "R") =
      fsMounts.commitMounts.find? (fun cm => decide (cm.commit.repo = gs "R"))) :=
  ⟨(alias_resolution_alias_first fsMounts (gs "out") cmOut).1 (by decide),
   (alias_resolution_alias_first fsMounts (gs "R") cmOut).2 (by decide) (by decide)⟩

theorem tblLookup_append_none (t : List GoStr) (k : GoStr) (h : tblLookup t k = none) :
    tblLookup (t ++ [k]) k = some t.length := by
  induction t with
  | nil => simp [tblLookup]
  | cons a rest ih =>
    by_cases hak : a = k
    · rw [tblLookup, if_pos hak] at h
      cases h
    · rw [tblLookup, if_neg hak, Option.map_eq_none'] at h
      rw [List.cons_append, tblLookup, if_neg hak, ih h]
      simp

theorem tblLookup_append_some (t ext : List GoStr) (k : GoStr) (i : Nat)
    (h : tblLookup t k = some i) : tblLookup (t ++ ext) k = some i := by
  induction t generalizing i with
  | nil => simp [tblLookup] at h
  | cons a rest ih =>
    by_cases hak : a = k
    · rw [tblLookup, if_pos hak] at h
      rw [List.cons_append, tblLookup, if_pos hak]
      exact h
    · rw [tblLookup, if_neg hak, Option.map_eq_some'] at h
      obtain ⟨j, hj, hji⟩ := h
      rw [List.cons_append, tblLookup, if_neg hak, ih j hj]
      simp [hji]

theorem tblLookup_inj (t : List GoStr) (k k' : GoStr) (i : Nat)
    (h1 : tblLookup t k = some i) (h2 : tblLookup t k' = some i) : k = k' := by
  induction t generalizing i with
  | nil => simp [tblLookup] at h1
  | cons a rest ih =>
    by_cases hak : a = k <;> by_cases hak' : a = k'
    · rw [← hak, ← hak']
    · rw [tblLookup, if_pos hak] at h1
      rw [tblLookup, if_neg hak', Option.map_eq_some'] at h2
      obtain ⟨j, _, hji⟩ := h2
      cases h1
      omega
    · rw [tblLookup, if_pos hak'] at h2
      rw [tblLookup, if_neg hak, Option.map_eq_some'] at h1
      obtain ⟨j, _, hji⟩ := h1
      cases h2
      omega
    · rw [tblLookup, if_neg hak, Option.map_eq_some'] at h1
      rw [tblLookup, if_neg hak', Option.map_eq_some'] at h2
      obtain ⟨j, hj, hji⟩ := h1
      obtain ⟨j', hj', hji'⟩ := h2
      have : j = j' := by omega
      exact ih j hj (this ▸ hj')

theorem inodeAt_of_lookup (t : List GoStr) (k : GoStr) (i : Nat)
    (h : tblLookup t k = some i) : inodeAt t k = i := by
  unfold inodeAt inodeStep
  rw [h]

theorem tableAfter_eq (t : List GoStr) (k : GoStr) :
    tableAfter t k = t ∨ tableAfter t k = t ++ [k] := by
  unfold tableAfter inodeStep
  cases tblLookup t k <;> simp

theorem tableRun_append (t : List GoStr) (ks : List GoStr) :
    ∃ ext, tableRun t ks = t ++ ext := by
  induction ks generalizing t with
  | nil => exact ⟨[], by simp [tableRun]⟩
  | cons k ks ih =>
    obtain ⟨ext, hext⟩ := ih (tableAfter t k)
    rw [tableRun, hext]
    rcases tableAfter_eq t k with h | h
    · exact ⟨ext, by rw [h]⟩
    · exact ⟨[k] ++ ext, by rw [h, List.append_assoc]⟩

theorem lookup_tableAfter_self (t : List GoStr) (k : GoStr) :
    tblLookup (tableAfter t k) k = some (inodeAt t k) := by
  unfold tableAfter inodeAt inodeStep
  cases h : tblLookup t k with
  | some i => simp [h]
  | none => simp [h, tblLookup_append_none t k h]

/-- Claim C5 counterexample: the inode key is the slash-joined string
repo/commit/path, so two distinct triples whose components contain a
slash can share the key and are then assigned the same inode. -/
theorem inode_distinct_triples_collide_counterexample :
    (⟨⟨gs "a/b", gs "c"⟩, gs "d"⟩ : PfsFile) ≠ (⟨⟨gs "a", gs "b/c"⟩, gs "d"⟩ : PfsFile) ∧
    key ⟨⟨gs "a/b", gs "c"⟩, gs "d"⟩ = key ⟨⟨gs "a", gs "b/c"⟩, gs "d"⟩ ∧
    inodeAt [] (key ⟨⟨gs "a/b", gs "c"⟩, gs "d"⟩) = 0 ∧
    inodeAt (tableAfter [] (key ⟨⟨gs "a/b", gs "c"⟩, gs "d"⟩))
      (key ⟨⟨gs "a", gs "b/c"⟩, gs "d"⟩) = 0 := by
  decide

/-- Claim C5 amended: the inode table is a pure function of the key
string repo/commit/path: once a key is queried, every later query of the
same key returns the same inode for the lifetime of the table, and two
distinct key strings are never assigned the same inode (distinct triples
can collide only when slash-containing components make their key strings
equal). -/
theorem inode_stable_and_unique_on_keys (pre mid : List GoStr) (k k' : GoStr)
    (hne : k ≠ k') :
    inodeAt (tableAfter (tableRun (tableAfter (tableRun [] pre) k) mid) k') k
      = inodeAt (tableRun [] pre) k ∧
    inodeAt (tableRun (tableAfter (tableRun [] pre) k) mid) k'
      ≠ inodeAt (tableRun [] pre) k := by
  have hk1 : tblLookup (tableAfter (tableRun [] pre) k) k
      = some (inodeAt (tableRun [] pre) k) :=
    lookup_tableAfter_self (tableRun [] pre) k
  obtain ⟨ext, hext⟩ := tableRun_append (tableAfter (tableRun [] pre) k) mid
  have hk2 : tblLookup (tableRun (tableAfter (tableRun [] pre) k) mid) k
      = some (inodeAt (tableRun [] pre) k) := by
    rw [hext]
    exact tblLookup_append_some _ _ _ _ hk1
  have hk3 : tblLookup (tableAfter (tableRun (tableAfter (tableRun [] pre) k) mid) k') k
      = some (inodeAt (tableRun [] pre) k) := by
    rcases tableAfter_eq (tableRun (tableAfter (tableRun [] pre) k) mid) k' with h | h
    · rw [h]
      exact hk2
    · rw [h]
      exact tblLookup_append_some _ _ _ _ hk2
  constructor
  · exact inodeAt_of_lookup _ k _ hk3
  · intro hji
    have hk'3 : tblLookup (tableAfter (tableRun (tableAfter (tableRun [] pre) k) mid) k') k'
        = some (inodeAt (tableRun (tableAfter (tableRun [] pre) k) mid) k') :=
      lookup_tableAfter_self _ k'
    rw [hji] at hk'3
    exact hne (tblLookup_inj _ k k' _ hk3 hk'3)

theorem inode_stable_and_unique_on_keys_witness :
    (gs "a" ≠ gs "b") ∧
    (inodeAt (tableAfter (tableRun (tableAfter (tableRun [] []) (gs "a")) []) (gs "b")) (gs "a")
      = inodeAt (tableRun [] []) (gs "a") ∧
    inodeAt (tableRun (tableAfter (tableRun [] []) (gs "a")) []) (gs "b")
      ≠ inodeAt (tableRun [] []) (gs "a")) :=
  ⟨by decide, inode_stable_and_unique_on_keys [] [] (gs "a") (gs "b") (by decide)⟩

theorem trimPref_append (p t : GoStr) : trimPref (p ++ t) p = t := by
  have hp : p.isPrefixOf (p ++ t) = true := by
    rw [ List.isPrefixOf_iff_prefix]
    exact ⟨t, rfl⟩
  unfold trimPref
  rw [if_pos hp]
  exact List.drop_left p t

theorem trimPref_self_empty (p : GoStr) : trimPref p p = [] := by
  have hp : p.isPrefixOf p = true := by
    rw [ List.isPrefixOf_iff_prefix]
  unfold trimPref
  rw [if_pos hp, List.drop_length]

theorem readFilesEntries_all_strict_ok (p : GoStr) (fis : List FileInfo)
    (h : ∀ fi ∈ fis, p <+: fi.path ∧ fi.path ≠ p) :
    ∃ ds, readFilesEntries p fis = .ok ds := by
  induction fis with
  | nil => exact ⟨[], rfl⟩
  | cons fi rest ih =>
    obtain ⟨⟨t, hteq⟩, hne⟩ := h fi (List.mem_cons_self fi rest)
    have ht : t ≠ [] := by
      intro h0
      rw [h0, List.append_nil] at hteq
      exact hne hteq.symm
    have htr : trimPref fi.path p = t := by
      rw [← hteq]
      exact trimPref_append p t
    obtain ⟨ds, hds⟩ := ih (fun x hx => h x (List.mem_cons_of_mem fi hx))
    cases t with
    | nil => exact absurd rfl ht
    | cons c cs =>
      cases hft : fi.fileType
      · exact ⟨⟨if c = '/' then cs else c :: cs, .file⟩ :: ds,
          by simp only [readFilesEntries, htr, hds, hft]⟩
      · exact ⟨⟨if c = '/' then cs else c :: cs, .dir⟩ :: ds,
          by simp only [readFilesEntries, htr, hds, hft]⟩
      · exact ⟨ds, by simp only [readFilesEntries, htr, hds, hft]⟩

theorem readFilesEntries_entry_at_dir_path (p : GoStr) (fis : List FileInfo)
    (h : ∃ fi ∈ fis, fi.path = p) :
    readFilesEntries p fis = .panics idxMsg := by
  induction fis with
  | nil =>
    obtain ⟨fi, hf, _⟩ := h
    exact absurd hf (List.not_mem_nil fi)
  | cons fi rest ih =>
    obtain ⟨x, hx, hxp⟩ := h
    rcases List.mem_cons.mp hx with rfl | hxr
    · have htr : trimPref x.path p = [] := by
        rw [hxp]
        exact trimPref_self_empty p
      simp only [readFilesEntries, htr]
    · have hrest := ih ⟨x, hxr, hxp⟩
      cases htr : trimPref fi.path p with
      | nil => simp only [readFilesEntries, htr]
      | cons c cs =>
        cases hft : fi.fileType <;> simp only [readFilesEntries, htr, hrest, hft]

/-- Claim C9: the readdir loop over the entries ListFile returns is total
when every entry path strictly extends the directory path, and aborts
with a Go runtime index error, rather than returning an error or
skipping, when some entry path equals the directory path (so that the
stripped name is empty and its first character is read out of range). -/
theorem readdir_total_iff_strict_extension (f : Filesystem) (srv : Server) (d : Node)
    (entries : List FileInfo)
    (h : srv.listFile d.file.commit.repo d.file.commit.id d.file.path
      (getFromCommitID f (getRepoOrAliasName d)) d.shard false = .ok entries) :
    ((∀ fi ∈ entries, d.file.path <+: fi.path ∧ fi.path ≠ d.file.path) →
      ∃ ds, readFiles f srv d =
        (.ok ds,
         [.listFile d.file.commit.repo d.file.commit.id d.file.path
            (getFromCommitID f (getRepoOrAliasName d)) d.shard false])) ∧
    ((∃ fi ∈ entries, fi.path = d.file.path) →
      readFiles f srv d =
        (.panics idxMsg,
         [.listFile d.file.commit.repo d.file.commit.id d.file.path
            (getFromCommitID f (getRepoOrAliasName d)) d.shard false])) := by
  constructor
  · intro hall
    obtain ⟨ds, hds⟩ := readFilesEntries_all_strict_ok d.file.path entries hall
    exact ⟨ds, by simp [readFiles, h, hds]⟩
  · intro hex
    have hbad := readFilesEntries_entry_at_dir_path d.file.path entries hex
    simp [readFiles, h, hbad]

/-- A data service listing one file that strictly extends the directory
path of dReadOnly. -/
def srvListGood : Server :=
  { srvOK with listFile := fun _ _ _ _ _ _ => .ok [⟨gs "a", .regular, 0, none⟩] }

/-- A data service listing one entry whose path equals the directory path
of dReadOnly. -/
def srvListBad : Server :=
  { srvOK with listFile := fun _ _ _ _ _ _ => .ok [⟨[], .regular, 0, none⟩] }

theorem readdir_total_iff_strict_extension_witness :
    (∃ ds, readFiles fsEmpty srvListGood dReadOnly =
      (.ok ds,
       [.listFile dReadOnly.file.commit.repo dReadOnly.file.commit.id dReadOnly.file.path
          (getFromCommitID fsEmpty (getRepoOrAliasName dReadOnly)) dReadOnly.shard false])) ∧
    readFiles fsEmpty srvListBad dReadOnly =
      (.panics idxMsg,
       [.listFile dReadOnly.file.commit.repo dReadOnly.file.commit.id dReadOnly.file.path
          (getFromCommitID fsEmpty (getRepoOrAliasName dReadOnly)) dReadOnly.shard false]) :=
  ⟨(readdir_total_iff_strict_extension fsEmpty srvListGood dReadOnly
      [⟨gs "a", .regular, 0, none⟩] (by rfl)).1 (by decide),
   (readdir_total_iff_strict_extension fsEmpty srvListBad dReadOnly
      [⟨[], .regular, 0, none⟩] (by rfl)).2 (by decide)⟩

end PachFuse
